import Mathlib

/-!
# Verification of the pdzanning task ordering / validation layer

Shallow embedding of the backend task routes of the pdzanning planning
application (`src/backend/src/routes/tasks.ts`, `src/backend/src/routes/plans.ts`,
`src/backend/src/schemas/task.ts`, `src/backend/src/models/Task.ts`) together
with proofs about the embedded operations.

Modelling conventions:
* Mongo document ids (`_id`, `plan_id`, user references) are opaque `String`s.
* The Mongo collection of tasks is a `List Task`; `updateOne` updates the first
  matching document, `deleteOne`/`findByIdAndDelete` removes the first matching
  document, `insertMany` appends.
* Mongoose timestamps (`created_at` / `updated_at`) are real-time values and are
  not modelled.
* JavaScript truthiness on optional strings / numbers is modelled explicitly
  (`jsTruthyStr`, `jsOrInt`): `undefined`, `""` and `0` are falsy.
* `new Date(s)` on the ISO `YYYY-MM-DD` strings used by the application is
  modelled by `parseDate`; any string not of that shape parses to `none`
  (JavaScript's Invalid Date, whose comparisons are all false).
-/

namespace Pdzanning

/-- Task status enum (`models/Task.ts`): `"todo" | "in_progress" | "done"`. -/
inductive Status where
  | todo
  | in_progress
  | done
deriving DecidableEq, Repr

/-- The string stored in Mongo for each status; listing sorts statuses by this
string (BSON string comparison). -/
def Status.str : Status → String
  | .todo => "todo"
  | .in_progress => "in_progress"
  | .done => "done"

/-- Task priority enum (`models/Task.ts`). -/
inductive Priority where
  | low
  | medium
  | high
  | urgent
deriving DecidableEq, Repr

/-- A persisted Task document (`models/Task.ts`, `TaskSchema`).  Timestamps are
omitted (real time); numeric fields that the routes never compute with are
`Int`. -/
structure Task where
  id : String
  plan_id : String
  title : String
  description : Option String := none
  status : Status
  priority : Option Priority := none
  assignee_ids : List String := []
  start_date : Option String := none
  due_date : Option String := none
  progress_pct : Int := 0
  parent_id : Option String := none
  dependency_ids : List String := []
  tags : List String := []
  estimate_hours : Option Int := none
  order_index : Int := 0
  goal : Option String := none
  notes : Option String := none
  deliverables : Option String := none
  created_by : String
  updated_by : String
deriving DecidableEq, Repr

/-! ## Reorder (`routes/tasks.ts`, `router.post("/reorder")`)

```js
const updates = task_ids.map((taskId, index) => ({
  updateOne: {
    filter: { _id: taskId, plan_id },
    update: { order_index: index + 1, updated_by: req.user!._id },
  },
}));
const result = await Task.bulkWrite(updates);
res.json({ ..., modifiedCount: result.modifiedCount });
```
-/

/-- The filter `{ _id: tid, plan_id: pid }` of a reorder `updateOne`. -/
def matchesR (pid tid : String) (t : Task) : Bool :=
  t.id == tid && t.plan_id == pid

/-- The update document of one reorder entry: set `order_index` to the entry's
1-based position and `updated_by` to the acting user. -/
def reorderUpd (actor : String) (pos : Nat) (t : Task) : Task :=
  { t with order_index := (pos : Int), updated_by := actor }

/-- Whether a reorder `updateOne` actually modifies a matched document: Mongo's
`modifiedCount` does not count documents whose stored values already equal the
update. -/
def reorderChanges (actor : String) (pos : Nat) (t : Task) : Bool :=
  !(t.order_index == (pos : Int) && t.updated_by == actor)

/-- One `updateOne {filter: {_id: tid, plan_id: pid}, update: ...}`: update the
first document matching the filter, returning the new collection and the
contribution to `modifiedCount` (0 or 1). -/
def updateOneR (pid actor : String) (pos : Nat) (tid : String) :
    List Task → List Task × Nat
  | [] => ([], 0)
  | t :: ts =>
    if matchesR pid tid t then
      (reorderUpd actor pos t :: ts, if reorderChanges actor pos t then 1 else 0)
    else
      let r := updateOneR pid actor pos tid ts
      (t :: r.1, r.2)

/-- Embedding of `Task.bulkWrite` over a list of reorder entries `(position, task id)`,
applied in order; returns the final collection and the total `modifiedCount`. -/
def bulkWriteR (pid actor : String) : List (Nat × String) → List Task → List Task × Nat
  | [], ts => (ts, 0)
  | (pos, tid) :: rest, ts =>
    let r1 := updateOneR pid actor pos tid ts
    let r2 := bulkWriteR pid actor rest r1.1
    (r2.1, r1.2 + r2.2)

/-- Embedding of `task_ids.map((taskId, index) => ...)` with the 1-based position
`index + 1` attached to each id. -/
def positionsFrom (n : Nat) : List String → List (Nat × String)
  | [] => []
  | x :: xs => (n, x) :: positionsFrom (n + 1) xs

/-- The reorder route: bulk-write `order_index := position, updated_by := actor`
for each id in `task_ids`, filtered to the given plan. -/
def reorderTasks (tasks : List Task) (task_ids : List String) (pid actor : String) :
    List Task × Nat :=
  bulkWriteR pid actor (positionsFrom 1 task_ids) tasks

/-- The effect of a single reorder entry on a single document. -/
def applyEntry (pid actor : String) (p : Nat × String) (t : Task) : Task :=
  if matchesR pid p.2 t then reorderUpd actor p.1 t else t

/-- The effect of a whole reorder entry list on a single document: the first
entry whose filter matches the document wins (later entries cannot match it
again because the update keeps `_id` and `plan_id`). -/
def applyEntries (pid actor : String) (ps : List (Nat × String)) (t : Task) : Task :=
  match ps.find? (fun p => matchesR pid p.2 t) with
  | some p => reorderUpd actor p.1 t
  | none => t

/-- Sample documents used to instantiate the theorems below. -/
def wTaskA : Task :=
  { id := "a", plan_id := "p", title := "A", status := .todo,
    order_index := 5, created_by := "u", updated_by := "u" }

def wTaskB : Task :=
  { id := "b", plan_id := "p", title := "B", status := .todo,
    order_index := 6, created_by := "u", updated_by := "u" }

def wTaskC : Task :=
  { id := "c", plan_id := "q", title := "C", status := .done,
    order_index := 7, created_by := "u", updated_by := "u" }

/-! ## Create / Update / Delete (`routes/tasks.ts`, `schemas/task.ts`)

The `validateRequest` middleware (`src/backend/src/utils/validation.ts`, not in
the source tree) runs the zod schema on the request body and rejects the request
before the handler on failure; the zod schemas themselves (`schemas/task.ts`)
are embedded below.
-/

/-- JavaScript truthiness of an optional string: `undefined` and `""` are
falsy. -/
def jsTruthyStr : Option String → Bool
  | none => false
  | some s => !(s == "")

/-- JavaScript `x || d` on an optional number: `undefined` and `0` fall back to
the default. -/
def jsOrInt : Option Int → Int → Int
  | none, d => d
  | some v, d => if v == 0 then d else v

def digitVal (c : Char) : Option Nat :=
  if c.isDigit then some (c.toNat - 48) else none

/-- Embedding of `new Date(s)` on the ISO `YYYY-MM-DD` strings the application stores,
encoded as the number `y * 10000 + m * 100 + d` (monotone in the date); any
other string stands for JavaScript's Invalid Date and parses to `none`. -/
def parseDate (s : String) : Option Nat :=
  match s.toList with
  | [y1, y2, y3, y4, h1, m1, m2, h2, d1, d2] =>
    if h1 = '-' ∧ h2 = '-' then
      match digitVal y1, digitVal y2, digitVal y3, digitVal y4,
            digitVal m1, digitVal m2, digitVal d1, digitVal d2 with
      | some a, some b, some c, some d, some e, some f, some g, some h =>
        some ((((a * 10 + b) * 10 + c) * 10 + d) * 10000 + (e * 10 + f) * 100 + (g * 10 + h))
      | _, _, _, _, _, _, _, _ => none
    else none
  | _ => none

/-- Embedding of `new Date(due) >= new Date(start)`: comparisons against Invalid Date (NaN)
are false. -/
def jsDateGe (due start : String) : Bool :=
  match parseDate due, parseDate start with
  | some d, some s => s ≤ d
  | _, _ => false

/-- The `.refine` on `taskSchema` (`schemas/task.ts`):
```js
if (data.start_date && data.due_date) {
  return new Date(data.due_date) >= new Date(data.start_date);
}
return true;
```
`taskUpdateSchema = taskBaseSchema.partial().omit({ plan_id: true })` carries
no such refinement. -/
def taskSchemaDatesOk (start due : Option String) : Bool :=
  if jsTruthyStr start && jsTruthyStr due then
    jsDateGe (due.getD "") (start.getD "")
  else
    true

/-- A parsed `taskSchema` create body (`schemas/task.ts`): optional fields are
`Option`s, `plan_id`, `title`, `status` are required. -/
structure TaskInput where
  plan_id : String
  title : String
  description : Option String := none
  status : Status
  priority : Option Priority := none
  assignee_ids : Option (List String) := none
  start_date : Option String := none
  due_date : Option String := none
  progress_pct : Option Int := none
  parent_id : Option String := none
  dependency_ids : Option (List String) := none
  tags : Option (List String) := none
  estimate_hours : Option Int := none
  order_index : Option Int := none
  goal : Option String := none
  notes : Option String := none
  deliverables : Option String := none
deriving DecidableEq, Repr

/-- A parsed `taskUpdateSchema` PATCH body: every field optional, no
`plan_id`. -/
structure TaskUpdateInput where
  title : Option String := none
  description : Option String := none
  status : Option Status := none
  priority : Option Priority := none
  assignee_ids : Option (List String) := none
  start_date : Option String := none
  due_date : Option String := none
  progress_pct : Option Int := none
  parent_id : Option String := none
  dependency_ids : Option (List String) := none
  tags : Option (List String) := none
  estimate_hours : Option Int := none
  order_index : Option Int := none
  goal : Option String := none
  notes : Option String := none
  deliverables : Option String := none
deriving DecidableEq, Repr

/-- The `order_index` values of the `(plan_id, status)` partition. -/
def partitionOrderIndices (tasks : List Task) (pid : String) (st : Status) : List Int :=
  (tasks.filter fun t => t.plan_id == pid && t.status == st).map Task.order_index

/-- Embedding of `Task.findOne({plan_id, status}).sort({order_index: -1})?.order_index`: the
largest `order_index` of the partition, if the partition is non-empty. -/
def maxOrderInPartition (tasks : List Task) (pid : String) (st : Status) : Option Int :=
  (partitionOrderIndices tasks pid st).max?

/-- Embedding of `(maxOrder?.order_index || 0) + 1`. -/
def defaultOrderIndex (tasks : List Task) (pid : String) (st : Status) : Int :=
  jsOrInt (maxOrderInPartition tasks pid st) 0 + 1

/-- Embedding of `if (taskData.order_index === undefined) { ... max + 1 ... }`. -/
def newTaskOrderIndex (tasks : List Task) (input : TaskInput) : Int :=
  match input.order_index with
  | some v => v
  | none => defaultOrderIndex tasks input.plan_id input.status

/-- Embedding of `if (taskData.parent_id) { findOne({_id: parent_id, plan_id}) }`. -/
def createParentOk (tasks : List Task) (input : TaskInput) : Bool :=
  if jsTruthyStr input.parent_id then
    tasks.any fun t => t.id == input.parent_id.getD "" && t.plan_id == input.plan_id
  else
    true

/-- Embedding of `if (deps && deps.length > 0) { find({_id: {$in: deps}, plan_id}).length === deps.length }`. -/
def createDepsOk (tasks : List Task) (input : TaskInput) : Bool :=
  match input.dependency_ids with
  | none => true
  | some deps =>
    if deps.length > 0 then
      ((tasks.filter fun t => deps.contains t.id && t.plan_id == input.plan_id).length
        == deps.length)
    else
      true

/-- The document `new Task(taskData)` persists, with the mongoose schema
defaults (`priority: "medium"`, `progress_pct: 0`, empty arrays) applied. -/
def buildTask (tasks : List Task) (input : TaskInput) (actor newId : String) : Task :=
  { id := newId, plan_id := input.plan_id, title := input.title,
    description := input.description, status := input.status,
    priority := some (input.priority.getD .medium),
    assignee_ids := input.assignee_ids.getD [],
    start_date := input.start_date, due_date := input.due_date,
    progress_pct := input.progress_pct.getD 0,
    parent_id := input.parent_id,
    dependency_ids := input.dependency_ids.getD [],
    tags := input.tags.getD [],
    estimate_hours := input.estimate_hours,
    order_index := newTaskOrderIndex tasks input,
    goal := input.goal, notes := input.notes, deliverables := input.deliverables,
    created_by := actor, updated_by := actor }

inductive CreateError where
  | validationDates
  | parentNotFound
  | depsNotFound
deriving DecidableEq, Repr

/-- The create route `router.post("/")`: zod validation (`taskSchema` refine), parent check,
dependency check, `order_index` default, then save. -/
def createTask (tasks : List Task) (input : TaskInput) (actor newId : String) :
    Except CreateError (List Task × Task) :=
  if !taskSchemaDatesOk input.start_date input.due_date then
    .error .validationDates
  else if !createParentOk tasks input then
    .error .parentNotFound
  else if !createDepsOk tasks input then
    .error .depsNotFound
  else
    .ok (tasks ++ [buildTask tasks input actor newId], buildTask tasks input actor newId)

/-- Embedding of `Object.assign(task, req.body)`: overwrite exactly the fields present in the
partial payload. -/
def mergeUpdate (t : Task) (b : TaskUpdateInput) : Task :=
  { t with
    title := b.title.getD t.title,
    description := match b.description with | none => t.description | some v => some v,
    status := b.status.getD t.status,
    priority := match b.priority with | none => t.priority | some v => some v,
    assignee_ids := b.assignee_ids.getD t.assignee_ids,
    start_date := match b.start_date with | none => t.start_date | some v => some v,
    due_date := match b.due_date with | none => t.due_date | some v => some v,
    progress_pct := b.progress_pct.getD t.progress_pct,
    parent_id := match b.parent_id with | none => t.parent_id | some v => some v,
    dependency_ids := b.dependency_ids.getD t.dependency_ids,
    tags := b.tags.getD t.tags,
    estimate_hours := match b.estimate_hours with | none => t.estimate_hours | some v => some v,
    order_index := b.order_index.getD t.order_index,
    goal := match b.goal with | none => t.goal | some v => some v,
    notes := match b.notes with | none => t.notes | some v => some v,
    deliverables := match b.deliverables with | none => t.deliverables | some v => some v }

/-- Embedding of `task.save()` after loading: write the document back over the stored
document with the same `_id`. -/
def saveDoc : List Task → Task → List Task
  | [], _ => []
  | u :: us, t => if u.id == t.id then t :: us else u :: saveDoc us t

/-- Embedding of `if (req.body.parent_id && req.body.parent_id !== task.parent_id)`: the
loaded `task.parent_id` is an ObjectId (or `undefined`) while the body value is
a string, so the strict inequality between them is always true when the body
value is a truthy string; the parent lookup therefore always runs in that
case. -/
def updateParentOk (tasks : List Task) (task : Task) (b : TaskUpdateInput) : Bool :=
  match b.parent_id with
  | none => true
  | some p =>
    if p == "" then
      true
    else
      tasks.any fun t => t.id == p && t.plan_id == task.plan_id

/-- Embedding of `if (req.body.dependency_ids !== undefined) { if (length > 0) { ... } }`. -/
def updateDepsOk (tasks : List Task) (task : Task) (b : TaskUpdateInput) : Bool :=
  match b.dependency_ids with
  | none => true
  | some deps =>
    if deps.length > 0 then
      ((tasks.filter fun t => deps.contains t.id && t.plan_id == task.plan_id).length
        == deps.length)
    else
      true

inductive UpdateError where
  | notFound
  | parentNotFound
  | depsNotFound
deriving DecidableEq, Repr

/-- The update route `router.patch("/:id")`: load by `{_id, plan_id}`, validate parent /
dependencies if present, merge the partial body, set `updated_by`, save.  The
`taskUpdateSchema` used by its `validateRequest` has no cross-field date
refinement, so no date check appears here. -/
def updateTask (tasks : List Task) (tid pid : String) (b : TaskUpdateInput)
    (actor : String) : Except UpdateError (List Task × Task) :=
  match tasks.find? (fun t => t.id == tid && t.plan_id == pid) with
  | none => .error .notFound
  | some task =>
    if !updateParentOk tasks task b then
      .error .parentNotFound
    else if !updateDepsOk tasks task b then
      .error .depsNotFound
    else
      let merged := { mergeUpdate task b with updated_by := actor }
      .ok (saveDoc tasks merged, merged)

inductive DeleteError where
  | notFound
  | conflictHasChildren
deriving DecidableEq, Repr

/-- Embedding of `Task.findByIdAndDelete(id)`: remove the document with the given `_id`. -/
def deleteById (tasks : List Task) (tid : String) : List Task :=
  tasks.eraseP (fun t => t.id == tid)

/-- The delete route `router.delete("/:id")`: load by `{_id, plan_id}` (404 otherwise), reject
with a conflict when any task (in any plan) has this id as `parent_id`,
otherwise delete.  On an error the collection is returned unchanged. -/
def deleteTask (tasks : List Task) (tid pid : String) :
    Except DeleteError (List Task) :=
  match tasks.find? (fun t => t.id == tid && t.plan_id == pid) with
  | none => .error .notFound
  | some _ =>
    if tasks.any (fun t => t.parent_id == some tid) then
      .error .conflictHasChildren
    else
      .ok (deleteById tasks tid)

def wInputC : TaskInput := { plan_id := "p", title := "C", status := .todo }

def wChild : Task :=
  { id := "ch", plan_id := "p", title := "Child", status := .todo,
    parent_id := some "a", order_index := 1, created_by := "u", updated_by := "u" }

def wUpdInverted : TaskUpdateInput :=
  { start_date := some "2024-01-15", due_date := some "2024-01-01" }

def wTaskAUpd : Task :=
  { wTaskA with
    start_date := some "2024-01-15", due_date := some "2024-01-01",
    updated_by := "w" }

def wInputInverted : TaskInput :=
  { plan_id := "p", title := "X", status := .todo,
    start_date := some "2024-01-15", due_date := some "2024-01-01" }

/-! ## Bulk create (`routes/tasks.ts`, `router.post("/bulk")`)

`bulkTaskSchema` is an array of `bulkTaskItemSchema = taskBaseSchema.extend({
_id: z.string().optional() })` plus a `plan_id`. -/

/-- A parsed bulk payload item: a create body plus an optional caller-supplied
`_id`. -/
structure BulkTaskItem where
  _id : Option String := none
  plan_id : String
  title : String
  description : Option String := none
  status : Status
  priority : Option Priority := none
  assignee_ids : Option (List String) := none
  start_date : Option String := none
  due_date : Option String := none
  progress_pct : Option Int := none
  parent_id : Option String := none
  dependency_ids : Option (List String) := none
  tags : Option (List String) := none
  estimate_hours : Option Int := none
  order_index : Option Int := none
  goal : Option String := none
  notes : Option String := none
  deliverables : Option String := none
deriving DecidableEq, Repr

/-- Embedding of `if (taskData.parent_id) { tasks.some(t => t._id === taskData.parent_id) ||
await Task.findOne({_id, plan_id}) }`: the `some` runs over ALL payloads of the
batch, the payload being validated included. -/
def bulkParentOk (batch : List BulkTaskItem) (tasks : List Task) (pid : String)
    (item : BulkTaskItem) : Bool :=
  if jsTruthyStr item.parent_id then
    (batch.any fun t => t._id == item.parent_id) ||
    (tasks.any fun t => t.id == item.parent_id.getD "" && t.plan_id == pid)
  else
    true

/-- Embedding of
```js
const validDeps = tasks.filter(t => taskData.dependency_ids!.includes(t._id));
const existingDeps = await Task.find({ _id: { $in: deps }, plan_id });
if (validDeps.length + existingDeps.length !== deps.length) { 400 }
``` -/
def bulkDepsOk (batch : List BulkTaskItem) (tasks : List Task) (pid : String)
    (item : BulkTaskItem) : Bool :=
  match item.dependency_ids with
  | none => true
  | some deps =>
    if deps.length > 0 then
      ((batch.filter fun t => match t._id with
          | none => false
          | some i => deps.contains i).length +
        (tasks.filter fun t => deps.contains t.id && t.plan_id == pid).length
        == deps.length)
    else
      true

inductive BulkError where
  | parentNotFound (parent title : String)
  | depsNotFound (title : String)
deriving DecidableEq, Repr

/-- The `for (const taskData of tasks)` validation loop: first failing payload
aborts the request before `insertMany`. -/
def bulkValidate (batch : List BulkTaskItem) (tasks : List Task) (pid : String) :
    List BulkTaskItem → Option BulkError
  | [] => none
  | item :: rest =>
    if !bulkParentOk batch tasks pid item then
      some (.parentNotFound (item.parent_id.getD "") item.title)
    else if !bulkDepsOk batch tasks pid item then
      some (.depsNotFound item.title)
    else
      bulkValidate batch tasks pid rest

/-- The document `insertMany` writes for one payload:
`{...taskData, plan_id, created_by: userId, updated_by: userId}` with the
mongoose schema defaults applied; a payload without `_id` receives a generated
id. -/
def bulkTaskToDoc (pid actor genId : String) (item : BulkTaskItem) : Task :=
  { id := item._id.getD genId, plan_id := pid, title := item.title,
    description := item.description, status := item.status,
    priority := some (item.priority.getD .medium),
    assignee_ids := item.assignee_ids.getD [],
    start_date := item.start_date, due_date := item.due_date,
    progress_pct := item.progress_pct.getD 0,
    parent_id := item.parent_id,
    dependency_ids := item.dependency_ids.getD [],
    tags := item.tags.getD [],
    estimate_hours := item.estimate_hours,
    order_index := item.order_index.getD 0,
    goal := item.goal, notes := item.notes, deliverables := item.deliverables,
    created_by := actor, updated_by := actor }

/-- The documents of a whole batch, in batch order. -/
def bulkDocs (pid actor : String) (genId : Nat → String) : Nat → List BulkTaskItem → List Task
  | _, [] => []
  | n, item :: rest => bulkTaskToDoc pid actor (genId n) item :: bulkDocs pid actor genId (n + 1) rest

/-- The bulk route: validate every payload, then insert the whole batch; the
pair is (error outcome, resulting collection). -/
def bulkCreateTasks (tasks : List Task) (batch : List BulkTaskItem)
    (pid actor : String) (genId : Nat → String) : Option BulkError × List Task :=
  match bulkValidate batch tasks pid batch with
  | some e => (some e, tasks)
  | none => (none, tasks ++ bulkDocs pid actor genId 0 batch)

/-- The validation rule as the spec words it: a reference must resolve in the
union of the already-persisted tasks of the plan and the OTHER payloads of the
same batch, matched by caller-supplied `_id`. -/
def specUnionValidItem (batch : List BulkTaskItem) (tasks : List Task) (pid : String)
    (item : BulkTaskItem) : Bool :=
  (match item.parent_id with
   | none => true
   | some p =>
     (tasks.any fun t => t.id == p && t.plan_id == pid) ||
     (batch.any fun other => other != item && other._id == some p)) &&
  ((item.dependency_ids.getD []).all fun d =>
    (tasks.any fun t => t.id == d && t.plan_id == pid) ||
    (batch.any fun other => other != item && other._id == some d))

/-- The bulk payload whose parent reference is its own caller-supplied id: the
spec's union of persisted tasks and OTHER payloads does not contain it, but the
code's `tasks.some(...)` runs over the whole batch and accepts it. -/
def wItemSelf : BulkTaskItem :=
  { _id := some "aaaaaaaaaaaaaaaaaaaaaaaa", plan_id := "p", title := "T",
    status := .todo, parent_id := some "aaaaaaaaaaaaaaaaaaaaaaaa" }

def wItemBadParent : BulkTaskItem :=
  { plan_id := "p", title := "B", status := .todo, parent_id := some "zz" }

def wItemNoOrder : BulkTaskItem :=
  { plan_id := "p", title := "N", status := .todo }

/-! ## Listing (`routes/tasks.ts`, `router.get("/")`)

```js
const sortObj: any = {};
if (sort === "order_index") {
  sortObj.status = 1;
  sortObj.order_index = order === "desc" ? -1 : 1;
} else {
  sortObj[sort as string] = order === "desc" ? -1 : 1;
}
```
The storage collaborator's `find(query).sort(sortObj).skip(..).limit(..)` is
modelled as a stable comparison sort of the filtered collection by the
lexicographic comparator `sortObj` induces, followed by drop/take.  BSON
compares missing values below numbers below strings; status strings compare
lexicographically (`"done" < "in_progress" < "todo"`). -/

/-- A BSON sort value of a task field. -/
inductive BsonVal where
  | missing
  | int (v : Int)
  | str (s : String)
deriving DecidableEq, Repr

/-- BSON comparison order used by the storage sort. -/
def bsonLt : BsonVal → BsonVal → Bool
  | .missing, .missing => false
  | .missing, .int _ => true
  | .missing, .str _ => true
  | .int _, .missing => false
  | .int v, .int w => decide (v < w)
  | .int _, .str _ => true
  | .str _, .missing => false
  | .str _, .int _ => false
  | .str s, .str u => decide (s < u)

/-- The sortable fields the listing uses; keys the model does not cover sort as
missing values. -/
def fieldVal (t : Task) (f : String) : BsonVal :=
  if f == "status" then .str t.status.str
  else if f == "order_index" then .int t.order_index
  else if f == "title" then .str t.title
  else if f == "plan_id" then .str t.plan_id
  else .missing

/-- The lexicographic "is sorted before or equal" relation a Mongo sort document
(list of `(field, direction)` pairs, direction `1` ascending) induces. -/
def sortLe : List (String × Int) → Task → Task → Bool
  | [], _, _ => true
  | (f, dir) :: rest, a, b =>
    let va := fieldVal a f
    let vb := fieldVal b f
    if va == vb then sortLe rest a b
    else if dir == 1 then bsonLt va vb else bsonLt vb va

instance decSortLe (spec : List (String × Int)) :
    DecidableRel (fun a b : Task => sortLe spec a b = true) :=
  fun a b => instDecidableEqBool (sortLe spec a b) true

/-- The `sortObj` construction of the listing route. -/
def buildSortObj (sort ord : String) : List (String × Int) :=
  if sort == "order_index" then
    [("status", 1), ("order_index", if ord == "desc" then -1 else 1)]
  else
    [(sort, if ord == "desc" then -1 else 1)]

/-- The listing route for a plain plan query (no optional filters): filter the
collection to the plan, sort by `sortObj`, paginate. -/
def listTasks (tasks : List Task) (pid : String) (sort ord : String)
    (skip limit : Nat) : List Task :=
  ((((tasks.filter fun t => t.plan_id == pid).insertionSort
      (fun a b => sortLe (buildSortObj sort ord) a b = true)).drop skip).take limit)

/-! ## Import (`routes/plans.ts`, `router.post("/import")`)

Each member / assignee / task entry is processed inside its own try/catch:
a failing entry maps to `null` and is filtered out (`.filter(Boolean)`), the
rest proceed.  The concurrent `Promise.all` is modelled sequentially; a task
entry's failure is modelled at its `task.save()` (the inner assignee
processing has its own catches).  Whether a given storage write fails is
external to the route, so it enters the model as an explicit oracle
(`memberOk` / `assigneeOk` / `taskOk`); fresh Mongo ids likewise arrive as
generator functions. -/

/-- A User document (`models/User.ts`). -/
structure User where
  id : String
  name : String
  email : String
  password_hash : String
  is_placeholder : Bool := false
deriving DecidableEq, Repr

/-- One member of the import body (`plan_data.plan.members[]`, zod-parsed). -/
structure ImportMember where
  name : String
  email : String
  role : String := "viewer"
deriving DecidableEq, Repr

/-- One assignee of an import task entry. -/
structure ImportAssignee where
  name : String
  email : String
deriving DecidableEq, Repr

/-- One task entry of the import body, zod-parsed: the `.default(...)`s of the
route's schema are already applied, in particular an absent `order_index` has
become `0`. -/
structure ImportTaskData where
  title : String
  description : Option String := none
  status : Status := .todo
  priority : Option Priority := none
  assignees : List ImportAssignee := []
  start_date : Option String := none
  due_date : Option String := none
  progress_pct : Int := 0
  parent_id : Option String := none
  dependency_ids : List String := []
  tags : List String := []
  estimate_hours : Option Int := none
  order_index : Int := 0
  goal : Option String := none
  notes : Option String := none
  deliverables : Option String := none
deriving DecidableEq, Repr

structure ImportPlanMeta where
  name : String
  description : Option String := none
  members : List ImportMember := []
deriving DecidableEq, Repr

structure ImportData where
  plan : ImportPlanMeta
  tasks : List ImportTaskData := []
deriving DecidableEq, Repr

/-- A `plan.members` entry (`joined_at` is a timestamp and not modelled). -/
structure PlanMember where
  user_id : String
  role : String
deriving DecidableEq, Repr

/-- Process one member list: reuse the user with the member's email or create a
placeholder user; a failing entry yields `none` and no user. -/
def processMembers (memberOk : Nat → Bool) (genUserId : Nat → String) :
    List User → Nat → List ImportMember → List User × List (Option PlanMember)
  | users, _, [] => (users, [])
  | users, idx, m :: rest =>
    if memberOk idx then
      match users.find? (fun u => u.email == m.email) with
      | some u =>
        let pr := processMembers memberOk genUserId users (idx + 1) rest
        (pr.1, some { user_id := u.id, role := m.role } :: pr.2)
      | none =>
        let nu : User := { id := genUserId idx, name := m.name, email := m.email,
                           password_hash := "placeholder", is_placeholder := true }
        let pr := processMembers memberOk genUserId (users ++ [nu]) (idx + 1) rest
        (pr.1, some { user_id := nu.id, role := m.role } :: pr.2)
    else
      let pr := processMembers memberOk genUserId users (idx + 1) rest
      (pr.1, none :: pr.2)

/-- Process one task's assignees: reuse or create placeholder users; a failing
assignee yields nothing (dropped by `.filter(Boolean)`). -/
def processAssignees (tIdx : Nat) (assigneeOk : Nat → Nat → Bool)
    (genUserId : Nat → Nat → String) :
    List User → Nat → List ImportAssignee → List User × List String
  | users, _, [] => (users, [])
  | users, aIdx, a :: rest =>
    if assigneeOk tIdx aIdx then
      match users.find? (fun u => u.email == a.email) with
      | some u =>
        let pr := processAssignees tIdx assigneeOk genUserId users (aIdx + 1) rest
        (pr.1, u.id :: pr.2)
      | none =>
        let nu : User := { id := genUserId tIdx aIdx, name := a.name, email := a.email,
                           password_hash := "placeholder", is_placeholder := true }
        let pr := processAssignees tIdx assigneeOk genUserId (users ++ [nu]) (aIdx + 1) rest
        (pr.1, nu.id :: pr.2)
    else
      let pr := processAssignees tIdx assigneeOk genUserId users (aIdx + 1) rest
      (pr.1, pr.2)

/-- The `new Task({...})` document of one import entry: `parent_id` and
`dependency_ids` are taken verbatim from the snapshot (no remapping to the
fresh ids), `order_index` is `taskData.order_index || index`. -/
def mkImportTask (planId actor tid : String) (idx : Nat) (item : ImportTaskData)
    (assigneeIds : List String) : Task :=
  { id := tid, plan_id := planId, title := item.title,
    description := item.description, status := item.status,
    priority := some (item.priority.getD .medium),
    assignee_ids := assigneeIds,
    start_date := item.start_date, due_date := item.due_date,
    progress_pct := item.progress_pct,
    parent_id := item.parent_id,
    dependency_ids := item.dependency_ids,
    tags := item.tags,
    estimate_hours := item.estimate_hours,
    order_index := jsOrInt (some item.order_index) (idx : Int),
    goal := item.goal, notes := item.notes, deliverables := item.deliverables,
    created_by := actor, updated_by := actor }

/-- Process the task entries: each entry's assignees are resolved, then the
document is built and saved; a save failure (`taskOk idx = false`) maps the
entry to `none`. -/
def processTasks (planId actor : String) (taskOk : Nat → Bool)
    (assigneeOk : Nat → Nat → Bool) (genUserId : Nat → Nat → String)
    (genTaskId : Nat → String) :
    List User → Nat → List ImportTaskData → List User × List (Option Task)
  | users, _, [] => (users, [])
  | users, idx, item :: rest =>
    let pa := processAssignees idx assigneeOk genUserId users 0 item.assignees
    let res := if taskOk idx then
        some (mkImportTask planId actor (genTaskId idx) idx item pa.2)
      else
        none
    let pr := processTasks planId actor taskOk assigneeOk genUserId genTaskId pa.1 (idx + 1) rest
    (pr.1, res :: pr.2)

structure ImportResult where
  users : List User
  members : List PlanMember
  createdTasks : List Task
  tasks_created : Nat
deriving Repr

/-- The import route: create the plan, process members (failures dropped),
process tasks (failures dropped), report `tasks_created` as the number of tasks
actually created. -/
def importPlan (users : List User) (data : ImportData) (actor planId : String)
    (memberOk : Nat → Bool) (taskOk : Nat → Bool) (assigneeOk : Nat → Nat → Bool)
    (genMemberUserId : Nat → String) (genAssigneeUserId : Nat → Nat → String)
    (genTaskId : Nat → String) : ImportResult :=
  let pm := processMembers memberOk genMemberUserId users 0 data.plan.members
  let pt := processTasks planId actor taskOk assigneeOk genAssigneeUserId genTaskId
    pm.1 0 data.tasks
  let created := pt.2.filterMap id
  { users := pt.1, members := pm.2.filterMap id,
    createdTasks := created, tasks_created := created.length }

/-- Number of indices in `[n, n + k)` the oracle accepts. -/
def countOkFrom (ok : Nat → Bool) : Nat → Nat → Nat
  | _, 0 => 0
  | n, k + 1 => (if ok n then 1 else 0) + countOkFrom ok (n + 1) k

def wImportData : ImportData :=
  { plan := { name := "P2" },
    tasks := [{ title := "t0", status := .todo, order_index := 5 },
              { title := "t1", status := .todo, order_index := 0 }] }

/-! ## Theorems -/

theorem updateOneR_fst_eq_map (pid actor : String) (pos : Nat) (tid : String)
    (ts : List Task) (h : (ts.map Task.id).Nodup) :
    (updateOneR pid actor pos tid ts).1 = ts.map (applyEntry pid actor (pos, tid)) := by
  induction ts with
  | nil => rfl
  | cons t ts ih =>
    simp only [List.map_cons, List.nodup_cons] at h
    by_cases hm : matchesR pid tid t
    · have htid : t.id = tid := by
        have := hm
        simp only [matchesR, Bool.and_eq_true, beq_iff_eq] at this
        exact this.1
      have hmap : ts.map (applyEntry pid actor (pos, tid)) = ts := by
        have : ∀ u ∈ ts, applyEntry pid actor (pos, tid) u = u := by
          intro u hu
          have hune : u.id ≠ tid := by
            intro he
            exact h.1 (by rw [htid, ← he]; exact List.mem_map_of_mem Task.id hu)
          simp [applyEntry, matchesR, hune]
        rw [List.map_congr_left this]
        simp
      simp [updateOneR, hm, applyEntry, hmap]
    · simp only [updateOneR, hm, ite_false, applyEntry, List.map_cons, Bool.false_eq_true,
        if_false]
      exact congrArg _ (ih h.2)

theorem updateOneR_snd (pid actor : String) (pos : Nat) (tid : String)
    (ts : List Task) (h : (ts.map Task.id).Nodup) :
    (updateOneR pid actor pos tid ts).2 =
      if ts.any (fun t => matchesR pid tid t && reorderChanges actor pos t) then 1 else 0 := by
  induction ts with
  | nil => rfl
  | cons t ts ih =>
    simp only [List.map_cons, List.nodup_cons] at h
    by_cases hm : matchesR pid tid t
    · have htid : t.id = tid := by
        have := hm
        simp only [matchesR, Bool.and_eq_true, beq_iff_eq] at this
        exact this.1
      have hany : ts.any (fun u => matchesR pid tid u && reorderChanges actor pos u) = false := by
        rw [List.any_eq_false]
        intro u hu
        have hune : u.id ≠ tid := by
          intro he
          exact h.1 (by rw [htid, ← he]; exact List.mem_map_of_mem Task.id hu)
        simp [matchesR, hune]
      by_cases hc : reorderChanges actor pos t
      · simp [updateOneR, hm, hc]
      · simp [updateOneR, hm, hc, hany]
    · simp only [updateOneR, hm, ite_false, Bool.false_eq_true, if_false]
      rw [ih h.2]
      simp [hm]

theorem updateOneR_id_map (pid actor : String) (pos : Nat) (tid : String)
    (ts : List Task) :
    (updateOneR pid actor pos tid ts).1.map Task.id = ts.map Task.id := by
  induction ts with
  | nil => rfl
  | cons t ts ih =>
    by_cases hm : matchesR pid tid t
    · simp [updateOneR, hm, reorderUpd]
    · simp only [updateOneR, hm, ite_false, Bool.false_eq_true, if_false, List.map_cons]
      rw [ih]

theorem bulkWriteR_fst_eq_map (pid actor : String) (ps : List (Nat × String))
    (ts : List Task) (hps : (ps.map Prod.snd).Nodup) (h : (ts.map Task.id).Nodup) :
    (bulkWriteR pid actor ps ts).1 = ts.map (applyEntries pid actor ps) := by
  induction ps generalizing ts with
  | nil =>
    have hall : ∀ u ∈ ts, applyEntries pid actor [] u = u := fun u _ => rfl
    simp only [bulkWriteR]
    rw [List.map_congr_left hall]
    simp
  | cons p rest ih =>
    obtain ⟨pos, tid⟩ := p
    simp only [List.map_cons, List.nodup_cons] at hps
    have h1 : (updateOneR pid actor pos tid ts).1 = ts.map (applyEntry pid actor (pos, tid)) :=
      updateOneR_fst_eq_map pid actor pos tid ts h
    have hids : ((updateOneR pid actor pos tid ts).1.map Task.id) = ts.map Task.id :=
      updateOneR_id_map pid actor pos tid ts
    simp only [bulkWriteR]
    rw [ih (updateOneR pid actor pos tid ts).1 hps.2 (hids ▸ h), h1, List.map_map]
    apply List.map_congr_left
    intro u _
    simp only [Function.comp_apply]
    by_cases hm : matchesR pid tid u
    · have htid : u.id = tid := by
        have := hm
        simp only [matchesR, Bool.and_eq_true, beq_iff_eq] at this
        exact this.1
      have hnomatch : ∀ q ∈ rest, matchesR pid q.2 (reorderUpd actor pos u) = false := by
        intro q hq
        have : q.2 ≠ tid := by
          intro he
          exact hps.1 (he ▸ List.mem_map_of_mem Prod.snd hq)
        simp [matchesR, reorderUpd, htid, this, Ne.symm this]
      have hfind : rest.find? (fun q => matchesR pid q.2 (reorderUpd actor pos u)) = none := by
        rw [List.find?_eq_none]
        intro q hq
        simp [hnomatch q hq]
      simp [applyEntry, applyEntries, hm, List.find?_cons, hfind]
    · simp [applyEntry, applyEntries, hm, List.find?_cons]

/-- The documents a whole reorder entry list modifies can be counted against the
initial collection: an entry contributes 1 exactly when some document matches
its filter and differs from the written values. -/
theorem bulkWriteR_snd (pid actor : String) (ps : List (Nat × String))
    (ts : List Task) (hps : (ps.map Prod.snd).Nodup) (h : (ts.map Task.id).Nodup) :
    (bulkWriteR pid actor ps ts).2 =
      (ps.filter
        (fun p => ts.any (fun t => matchesR pid p.2 t && reorderChanges actor p.1 t))).length := by
  induction ps generalizing ts with
  | nil => rfl
  | cons p rest ih =>
    obtain ⟨pos, tid⟩ := p
    simp only [List.map_cons, List.nodup_cons] at hps
    have h1 : (updateOneR pid actor pos tid ts).1 = ts.map (applyEntry pid actor (pos, tid)) :=
      updateOneR_fst_eq_map pid actor pos tid ts h
    have hids : ((updateOneR pid actor pos tid ts).1.map Task.id) = ts.map Task.id :=
      updateOneR_id_map pid actor pos tid ts
    have hrest := ih (updateOneR pid actor pos tid ts).1 hps.2 (hids ▸ h)
    have hfilter :
        rest.filter
            (fun q => (updateOneR pid actor pos tid ts).1.any
              (fun t => matchesR pid q.2 t && reorderChanges actor q.1 t)) =
          rest.filter
            (fun q => ts.any (fun t => matchesR pid q.2 t && reorderChanges actor q.1 t)) := by
      apply List.filter_congr
      intro q hq
      have hne : q.2 ≠ tid := by
        intro he
        exact hps.1 (he ▸ List.mem_map_of_mem Prod.snd hq)
      rw [h1, List.any_map]
      apply congrArg
      funext u
      simp only [Function.comp_apply]
      by_cases hm : matchesR pid tid u
      · have htid : u.id = tid := by
          have := hm
          simp only [matchesR, Bool.and_eq_true, beq_iff_eq] at this
          exact this.1
        have he1 : applyEntry pid actor (pos, tid) u = reorderUpd actor pos u := by
          simp [applyEntry, hm]
        have hf1 : matchesR pid q.2 (reorderUpd actor pos u) = false := by
          simp [matchesR, reorderUpd, htid, Ne.symm hne]
        have hf2 : matchesR pid q.2 u = false := by
          simp [matchesR, htid, Ne.symm hne]
        rw [he1]
        simp [hf1, hf2]
      · have he1 : applyEntry pid actor (pos, tid) u = u := by
          simp [applyEntry, hm]
        rw [he1]
    simp only [bulkWriteR]
    rw [hrest, hfilter, updateOneR_snd pid actor pos tid ts h, List.filter_cons]
    by_cases hc : ts.any (fun t => matchesR pid tid t && reorderChanges actor pos t)
    · simp [hc, Nat.add_comm]
    · simp [hc]

theorem positionsFrom_map_snd (n : Nat) (ids : List String) :
    (positionsFrom n ids).map Prod.snd = ids := by
  induction ids generalizing n with
  | nil => rfl
  | cons x xs ih => simp [positionsFrom, ih]

theorem positionsFrom_find? (pid : String) (ids : List String) (hI : ids.Nodup)
    (n i : Nat) (hi : i < ids.length) (t : Task)
    (hid : t.id = ids[i]) (hplan : t.plan_id = pid) :
    (positionsFrom n ids).find? (fun p => matchesR pid p.2 t) = some (n + i, ids[i]) := by
  induction ids generalizing n i with
  | nil => exact absurd hi (by simp)
  | cons x xs ih =>
    rw [List.nodup_cons] at hI
    match i with
    | 0 =>
      have hm : matchesR pid x t = true := by
        simp only [List.getElem_cons_zero] at hid
        simp [matchesR, hid, hplan]
      simp [positionsFrom, List.find?_cons, hm]
    | j + 1 =>
      simp only [List.getElem_cons_succ] at hid
      have hj : j < xs.length := by
        simp only [List.length_cons] at hi
        omega
      have hm : matchesR pid x t = false := by
        have : x ≠ xs[j] := by
          intro he
          exact hI.1 (he ▸ List.getElem_mem hj)
        simp [matchesR, hid, this.symm]
      simp only [positionsFrom, List.find?_cons, hm, Bool.false_eq_true, if_false,
        List.getElem_cons_succ]
      rw [ih hI.2 (n + 1) j hj hid]
      have harith : n + 1 + j = n + (j + 1) := by omega
      rw [harith]

theorem updateOneR_getElem?_of_ne (pid actor : String) (pos : Nat) (tid : String)
    (ts : List Task) (j : Nat) (t : Task)
    (hj : ts[j]? = some t) (hne : t.id ≠ tid) :
    (updateOneR pid actor pos tid ts).1[j]? = some t := by
  induction ts generalizing j with
  | nil => simp at hj
  | cons u us ih =>
    by_cases hm : matchesR pid tid u
    · match j with
      | 0 =>
        simp only [List.getElem?_cons_zero, Option.some.injEq] at hj
        have : u.id = tid := by
          have := hm
          simp only [matchesR, Bool.and_eq_true, beq_iff_eq] at this
          exact this.1
        exact absurd (hj ▸ this) hne
      | k + 1 =>
        simp only [List.getElem?_cons_succ] at hj
        simp [updateOneR, hm, hj]
    · match j with
      | 0 =>
        simp only [List.getElem?_cons_zero, Option.some.injEq] at hj
        subst hj
        simp [updateOneR, hm]
      | k + 1 =>
        simp only [List.getElem?_cons_succ] at hj
        simp only [updateOneR, hm, Bool.false_eq_true, if_false, List.getElem?_cons_succ]
        exact ih k hj

theorem bulkWriteR_getElem?_of_ne (pid actor : String) (ps : List (Nat × String))
    (ts : List Task) (j : Nat) (t : Task)
    (hj : ts[j]? = some t) (hne : ∀ p ∈ ps, t.id ≠ p.2) :
    (bulkWriteR pid actor ps ts).1[j]? = some t := by
  induction ps generalizing ts with
  | nil => exact hj
  | cons p rest ih =>
    obtain ⟨pos, tid⟩ := p
    simp only [bulkWriteR]
    exact ih (updateOneR pid actor pos tid ts).1
      (updateOneR_getElem?_of_ne pid actor pos tid ts j t hj
        (hne (pos, tid) (List.mem_cons_self _ _)))
      (fun q hq => hne q (List.mem_cons_of_mem _ hq))

theorem positionsFrom_snd_mem {n : Nat} {ids : List String} {p : Nat × String}
    (hp : p ∈ positionsFrom n ids) : p.2 ∈ ids := by
  have := List.mem_map_of_mem Prod.snd hp
  rwa [positionsFrom_map_snd] at this

/-- C1: For every `Reorder(task_ids, plan_id, actor)` call, each task in the
input list whose id belongs to the given plan has its `order_index` set to its
1-based position in the input list and its `updated_by` set to the acting user;
ids that do not match a task in the plan are silently skipped (the rest of the
collection is untouched, no error is raised), and the operation returns as
`modifiedCount` the number of entries whose task was actually modified. -/
theorem reorder_sets_positions_and_counts (tasks : List Task) (task_ids : List String)
    (pid actor : String)
    (hT : (tasks.map Task.id).Nodup) (hI : task_ids.Nodup) :
    (∀ (i : Nat) (hi : i < task_ids.length) (t : Task),
        t ∈ tasks → t.plan_id = pid → t.id = task_ids[i] →
        { t with order_index := ((i + 1 : Nat) : Int), updated_by := actor }
          ∈ (reorderTasks tasks task_ids pid actor).1) ∧
    (∀ t ∈ tasks, (t.plan_id = pid → t.id ∉ task_ids) →
        t ∈ (reorderTasks tasks task_ids pid actor).1) ∧
    (reorderTasks tasks task_ids pid actor).2 =
      ((positionsFrom 1 task_ids).filter
        (fun p => tasks.any (fun u => matchesR pid p.2 u && reorderChanges actor p.1 u))).length := by
  have hps : ((positionsFrom 1 task_ids).map Prod.snd).Nodup := by
    rw [positionsFrom_map_snd]; exact hI
  have hmap := bulkWriteR_fst_eq_map pid actor (positionsFrom 1 task_ids) tasks hps hT
  refine ⟨?_, ?_, ?_⟩
  · intro i hi t ht hplan hid
    have hfind := positionsFrom_find? pid task_ids hI 1 i hi t hid hplan
    have happ : applyEntries pid actor (positionsFrom 1 task_ids) t
        = { t with order_index := ((i + 1 : Nat) : Int), updated_by := actor } := by
      simp only [applyEntries, hfind, reorderUpd]
      have : 1 + i = i + 1 := Nat.add_comm 1 i
      rw [this]
    rw [reorderTasks, hmap, ← happ]
    exact List.mem_map_of_mem _ ht
  · intro t ht hcond
    have hfind : (positionsFrom 1 task_ids).find? (fun p => matchesR pid p.2 t) = none := by
      rw [List.find?_eq_none]
      intro p hp hmatch
      have hmatch' : t.id = p.2 ∧ t.plan_id = pid := by
        simpa [matchesR] using hmatch
      exact (hcond hmatch'.2) (hmatch'.1 ▸ positionsFrom_snd_mem hp)
    have happ : applyEntries pid actor (positionsFrom 1 task_ids) t = t := by
      simp only [applyEntries, hfind]
    rw [reorderTasks, hmap, ← happ]
    exact List.mem_map_of_mem _ ht
  · rw [reorderTasks]
    exact bulkWriteR_snd pid actor (positionsFrom 1 task_ids) tasks hps hT

theorem reorder_sets_positions_and_counts_witness :
    { wTaskB with order_index := ((0 + 1 : Nat) : Int), updated_by := "w" }
      ∈ (reorderTasks [wTaskA, wTaskB, wTaskC] ["b", "a"] "p" "w").1 :=
  (reorder_sets_positions_and_counts [wTaskA, wTaskB, wTaskC] ["b", "a"] "p" "w"
    (by decide) (by decide)).1 0 (by decide) wTaskB (by decide) (by decide) (by decide)

/-- C6: For every `Reorder(task_ids, plan_id, actor)` call, every task whose id
is not in `task_ids` (in particular every task of the plan not listed) keeps
exactly its old document at its old position in the collection: no field of it
changes. -/
theorem reorder_frame (tasks : List Task) (task_ids : List String) (pid actor : String)
    (j : Nat) (t : Task) (hj : tasks[j]? = some t) (hnot : t.id ∉ task_ids) :
    (reorderTasks tasks task_ids pid actor).1[j]? = some t := by
  rw [reorderTasks]
  refine bulkWriteR_getElem?_of_ne pid actor (positionsFrom 1 task_ids) tasks j t hj ?_
  intro p hp he
  exact hnot (he ▸ positionsFrom_snd_mem hp)

theorem reorder_frame_witness :
    (reorderTasks [wTaskA, wTaskB, wTaskC] ["b", "a"] "p" "w").1[2]? = some wTaskC :=
  reorder_frame [wTaskA, wTaskB, wTaskC] ["b", "a"] "p" "w" 2 wTaskC (by decide) (by decide)

/-- C2: For every Create with no `order_index` supplied, the created task's
`order_index` equals the maximum `order_index` among existing tasks of the same
`(plan_id, status)` partition plus one, and equals 1 when that partition is
empty. -/
theorem create_default_order_index (tasks : List Task) (input : TaskInput)
    (actor newId : String) (hnone : input.order_index = none)
    (ts' : List Task) (t : Task)
    (hok : createTask tasks input actor newId = .ok (ts', t)) :
    (partitionOrderIndices tasks input.plan_id input.status = [] → t.order_index = 1) ∧
    (∀ m, m ∈ partitionOrderIndices tasks input.plan_id input.status →
      (∀ x ∈ partitionOrderIndices tasks input.plan_id input.status, x ≤ m) →
      t.order_index = m + 1) := by
  have ht : t = buildTask tasks input actor newId := by
    rw [createTask] at hok
    split at hok
    · exact absurd hok (by simp)
    · split at hok
      · exact absurd hok (by simp)
      · split at hok
        · exact absurd hok (by simp)
        · simp only [Except.ok.injEq, Prod.mk.injEq] at hok
          exact hok.2.symm
  have horder : t.order_index = defaultOrderIndex tasks input.plan_id input.status := by
    rw [ht]
    simp [buildTask, newTaskOrderIndex, hnone]
  constructor
  · intro hemp
    rw [horder, defaultOrderIndex, maxOrderInPartition, hemp]
    simp [jsOrInt]
  · intro m hm hub
    have hanti : Std.Antisymm (α := Int) (· ≤ ·) := ⟨fun h1 h2 => Int.le_antisymm h1 h2⟩
    have hmax : (partitionOrderIndices tasks input.plan_id input.status).max? = some m := by
      rw [List.max?_eq_some_iff]
      · exact ⟨hm, hub⟩
      all_goals simp [le_total]
    rw [horder, defaultOrderIndex, maxOrderInPartition, hmax]
    by_cases h0 : m = 0
    · subst h0
      simp [jsOrInt]
    · simp [jsOrInt, h0]

theorem create_default_order_index_witness :
    (buildTask [wTaskA, wTaskB] wInputC "u" "c").order_index = 6 + 1 :=
  (create_default_order_index [wTaskA, wTaskB] wInputC "u" "c" rfl
      ([wTaskA, wTaskB] ++ [buildTask [wTaskA, wTaskB] wInputC "u" "c"])
      (buildTask [wTaskA, wTaskB] wInputC "u" "c") rfl).2 6
    (by decide) (by decide)

theorem deleteById_spec (tasks : List Task) (t : Task)
    (hnd : (tasks.map Task.id).Nodup) (ht : t ∈ tasks) :
    t ∉ deleteById tasks t.id ∧
    ∀ u ∈ tasks, u ≠ t → u ∈ deleteById tasks t.id := by
  induction tasks with
  | nil => simp at ht
  | cons u us ih =>
    simp only [List.map_cons, List.nodup_cons] at hnd
    by_cases hid : u.id == t.id
    · have hunotin : t ∉ us := by
        intro htus
        exact hnd.1 (by
          rw [show u.id = t.id from by simpa using hid]
          exact List.mem_map_of_mem Task.id htus)
      have htu : t = u := by
        rcases List.mem_cons.mp ht with h | h
        · exact h
        · exact absurd h hunotin
      have hdel : deleteById (u :: us) t.id = us := by
        simp only [deleteById]
        rw [List.eraseP_cons_of_pos]
        exact hid
      constructor
      · rw [hdel, htu]
        intro hcon
        exact hunotin (htu ▸ hcon)
      · intro v hv hne
        rw [hdel]
        rcases List.mem_cons.mp hv with h | h
        · exact absurd (h.trans htu.symm) hne
        · exact h
    · have htus : t ∈ us := by
        rcases List.mem_cons.mp ht with h | h
        · exfalso
          apply hid
          rw [h]
          simp
        · exact h
      have hdel : deleteById (u :: us) t.id = u :: deleteById us t.id := by
        simp only [deleteById]
        rw [List.eraseP_cons_of_neg]
        simpa using hid
      obtain ⟨ih1, ih2⟩ := ih hnd.2 htus
      constructor
      · rw [hdel]
        intro hcon
        rcases List.mem_cons.mp hcon with h | h
        · apply hid
          rw [h]
          simp
        · exact ih1 h
      · intro v hv hne
        rw [hdel]
        rcases List.mem_cons.mp hv with h | h
        · exact h ▸ List.mem_cons_self _ _
        · exact List.mem_cons_of_mem _ (ih2 v h hne)

/-- C4: For every task X in the collection, deleting X (by its id and plan)
fails with a conflict and performs no delete whenever some task — in any plan —
has `parent_id = X.id`; when no task has `parent_id = X.id`, the delete
succeeds and removes exactly X. -/
theorem delete_blocked_by_children (tasks : List Task) (t : Task) (ht : t ∈ tasks)
    (hnd : (tasks.map Task.id).Nodup) :
    ((∃ c ∈ tasks, c.parent_id = some t.id) →
        deleteTask tasks t.id t.plan_id = .error .conflictHasChildren) ∧
    ((∀ c ∈ tasks, c.parent_id ≠ some t.id) →
        deleteTask tasks t.id t.plan_id = .ok (deleteById tasks t.id) ∧
        t ∉ deleteById tasks t.id ∧
        ∀ u ∈ tasks, u ≠ t → u ∈ deleteById tasks t.id) := by
  have hfind : ∃ u, tasks.find? (fun x => x.id == t.id && x.plan_id == t.plan_id) = some u := by
    cases hf : tasks.find? (fun x => x.id == t.id && x.plan_id == t.plan_id) with
    | none =>
      rw [List.find?_eq_none] at hf
      exact absurd (by simp : (t.id == t.id && t.plan_id == t.plan_id) = true) (hf t ht)
    | some u => exact ⟨u, rfl⟩
  obtain ⟨u, hu⟩ := hfind
  constructor
  · intro ⟨c, hc, hcp⟩
    have hany : tasks.any (fun x => x.parent_id == some t.id) = true := by
      rw [List.any_eq_true]
      exact ⟨c, hc, by simp [hcp]⟩
    rw [deleteTask, hu]
    simp [hany]
  · intro hnoc
    have hany : tasks.any (fun x => x.parent_id == some t.id) = false := by
      rw [List.any_eq_false]
      intro c hc
      simpa using hnoc c hc
    refine ⟨?_, deleteById_spec tasks t hnd ht⟩
    rw [deleteTask, hu]
    simp [hany]

theorem delete_blocked_by_children_witness :
    deleteTask [wTaskA, wChild] "a" "p" = .error .conflictHasChildren :=
  (delete_blocked_by_children [wTaskA, wChild] wTaskA (by decide) (by decide)).1
    ⟨wChild, by decide, by decide⟩

/-- C5: a Create body whose `due_date` precedes its `start_date` is rejected by
the `taskSchema` refinement before any write — but the same pair of dates in a
PATCH body passes `taskUpdateSchema` (built from the unrefined base schema) and
is persisted, so the persisted-task invariant `due_date >= start_date` does not
survive updates. -/
theorem update_skips_date_validation :
    createTask [] wInputInverted "u" "x" = .error .validationDates ∧
    updateTask [wTaskA] "a" "p" wUpdInverted "w" = .ok ([wTaskAUpd], wTaskAUpd) ∧
    wTaskAUpd.start_date = some "2024-01-15" ∧
    wTaskAUpd.due_date = some "2024-01-01" ∧
    jsDateGe "2024-01-01" "2024-01-15" = false := by
  refine ⟨?_, ?_, rfl, rfl, ?_⟩
  · rfl
  · rfl
  · rfl

/-- C3 (counterexample): a batch containing a payload whose `parent_id` does not
resolve in the spec's union of persisted plan tasks and other batch payloads is
nevertheless fully persisted — the code matches a payload's references against
the whole batch, itself included. -/
theorem bulk_union_validation_counterexample :
    wItemSelf ∈ [wItemSelf] ∧
    specUnionValidItem [wItemSelf] [] "p" wItemSelf = false ∧
    (bulkCreateTasks [] [wItemSelf] "p" "u" (fun _ => "g0")).1 = none ∧
    (bulkCreateTasks [] [wItemSelf] "p" "u" (fun _ => "g0")).2.length = 1 := by
  refine ⟨List.mem_cons_self _ _, rfl, rfl, rfl⟩

/-- C3 (amended): every payload is checked by the route's validation — parent:
`_id` match over all payloads of the batch (the payload itself included) or a
persisted task of the plan; dependencies: batch `_id` matches plus persisted
matches must count up to the requested ids — and if any payload fails these
checks the request is rejected before `insertMany`: zero tasks of the batch are
persisted. -/
theorem bulk_invalid_payload_rejects_batch (tasks : List Task) (batch : List BulkTaskItem)
    (pid actor : String) (genId : Nat → String) (item : BulkTaskItem) (hitem : item ∈ batch)
    (hfail : bulkParentOk batch tasks pid item = false ∨ bulkDepsOk batch tasks pid item = false) :
    (bulkCreateTasks tasks batch pid actor genId).1.isSome = true ∧
    (bulkCreateTasks tasks batch pid actor genId).2 = tasks := by
  have hv : ∀ l, item ∈ l → bulkValidate batch tasks pid l ≠ none := by
    intro l
    induction l with
    | nil =>
      intro h
      simp at h
    | cons x rest ih =>
      intro hmem
      by_cases hp : bulkParentOk batch tasks pid x
      · by_cases hd : bulkDepsOk batch tasks pid x
        · have hxne : item ≠ x := by
            intro he
            rcases hfail with hf | hf
            · rw [he] at hf
              rw [hf] at hp
              simp at hp
            · rw [he] at hf
              rw [hf] at hd
              simp at hd
          have hrest : item ∈ rest := by
            rcases List.mem_cons.mp hmem with he | he
            · exact absurd he hxne
            · exact he
          simpa [bulkValidate, hp, hd] using ih hrest
        · simp [bulkValidate, hp, hd]
      · simp [bulkValidate, hp]
  have hne := hv batch hitem
  rw [bulkCreateTasks]
  cases hval : bulkValidate batch tasks pid batch with
  | none => exact absurd hval hne
  | some e => simp

theorem bulk_invalid_payload_rejects_batch_witness :
    (bulkCreateTasks [] [wItemBadParent] "p" "u" (fun _ => "g1")).2 = ([] : List Task) :=
  (bulk_invalid_payload_rejects_batch [] [wItemBadParent] "p" "u" (fun _ => "g1")
    wItemBadParent (List.mem_cons_self _ _) (Or.inl (by decide))).2

theorem bulkDocs_getElem? (pid actor : String) (genId : Nat → String)
    (batch : List BulkTaskItem) :
    ∀ (n i : Nat) (item : BulkTaskItem), batch[i]? = some item →
      (bulkDocs pid actor genId n batch)[i]? =
        some (bulkTaskToDoc pid actor (genId (n + i)) item) := by
  induction batch with
  | nil =>
    intro n i item hi
    simp at hi
  | cons x rest ih =>
    intro n i item hi
    match i with
    | 0 =>
      simp only [List.getElem?_cons_zero, Option.some.injEq] at hi
      subst hi
      simp [bulkDocs]
    | j + 1 =>
      simp only [List.getElem?_cons_succ] at hi
      simp only [bulkDocs, List.getElem?_cons_succ]
      rw [ih (n + 1) j item hi]
      have harith : n + 1 + j = n + (j + 1) := by omega
      rw [harith]

/-- C9: a bulk payload that omits `order_index` is persisted with the mongoose
schema default 0; the created documents are computed from the payloads alone
(`bulkDocs` takes no collection argument), so the create route's
max-plus-one default assignment is never consulted for any batch item. -/
theorem bulk_create_order_index_schema_default (batch : List BulkTaskItem)
    (pid actor : String) (genId : Nat → String) (i : Nat) (item : BulkTaskItem)
    (hi : batch[i]? = some item) (hnone : item.order_index = none) :
    (bulkDocs pid actor genId 0 batch)[i]? =
      some (bulkTaskToDoc pid actor (genId i) item) ∧
    (bulkTaskToDoc pid actor (genId i) item).order_index = 0 ∧
    (∀ ts : List Task, bulkValidate batch ts pid batch = none →
      (bulkCreateTasks ts batch pid actor genId).2 =
        ts ++ bulkDocs pid actor genId 0 batch) := by
  refine ⟨?_, ?_, ?_⟩
  · have := bulkDocs_getElem? pid actor genId batch 0 i item hi
    simpa using this
  · simp [bulkTaskToDoc, hnone]
  · intro ts hval
    rw [bulkCreateTasks, hval]

theorem bulk_create_order_index_schema_default_witness :
    (bulkTaskToDoc "p" "u" "g2" wItemNoOrder).order_index = 0 :=
  (bulk_create_order_index_schema_default [wItemNoOrder] "p" "u" (fun _ => "g2") 0
    wItemNoOrder (by decide) rfl).2.1

theorem fieldVal_status (t : Task) : fieldVal t "status" = .str t.status.str := rfl

theorem fieldVal_order (t : Task) : fieldVal t "order_index" = .int t.order_index := rfl

theorem sortLe_board_asc_iff (a b : Task) :
    (sortLe [("status", 1), ("order_index", 1)] a b = true) ↔
      (a.status.str < b.status.str ∨
        (a.status.str = b.status.str ∧ a.order_index ≤ b.order_index)) := by
  simp only [sortLe, fieldVal_status, fieldVal_order]
  by_cases he : a.status.str = b.status.str
  · by_cases ho : a.order_index = b.order_index
    · simp [he, ho]
    · simp only [he, ho, beq_iff_eq, BsonVal.str.injEq, BsonVal.int.injEq, if_true, if_neg,
        ite_true, ite_false]
      simp [bsonLt, he, ho]
      omega
  · have hne : (BsonVal.str a.status.str == BsonVal.str b.status.str) = false := by
      simp [he]
    simp [hne, bsonLt, he]

theorem sortLe_board_desc_iff (a b : Task) :
    (sortLe [("status", 1), ("order_index", -1)] a b = true) ↔
      (a.status.str < b.status.str ∨
        (a.status.str = b.status.str ∧ b.order_index ≤ a.order_index)) := by
  simp only [sortLe, fieldVal_status, fieldVal_order]
  by_cases he : a.status.str = b.status.str
  · by_cases ho : a.order_index = b.order_index
    · simp [he, ho]
    · simp only [he, ho, beq_iff_eq, BsonVal.str.injEq, BsonVal.int.injEq, if_true, if_neg,
        ite_true, ite_false]
      simp [bsonLt, he, ho]
      omega
  · have hne : (BsonVal.str a.status.str == BsonVal.str b.status.str) = false := by
      simp [he]
    simp [hne, bsonLt, he]

/-- C7 (counterexample): the claim's clause "for any other sort key, status is
not used as a primary sort" fails at the sort key `"status"` itself: the route
then sorts primarily (and only) by status. -/
theorem sort_status_key_counterexample :
    "status" ≠ "order_index" ∧
    (buildSortObj "status" "asc").map Prod.fst = ["status"] :=
  ⟨by decide, rfl⟩

/-- C7 (amended): when `order_index` sort is requested, the returned page is
sorted primarily by status ascending and secondarily by `order_index`,
ascending by default and descending when `order=desc`; for every other sort
key the sort document is that key alone — no status key is prepended (status is
primary only when it is itself the requested key). -/
theorem list_tasks_board_sort (tasks : List Task) (pid ord : String)
    (skip limit : Nat) :
    (ord ≠ "desc" →
      (listTasks tasks pid "order_index" ord skip limit).Sorted (fun a b =>
        a.status.str < b.status.str ∨
          (a.status.str = b.status.str ∧ a.order_index ≤ b.order_index))) ∧
    (ord = "desc" →
      (listTasks tasks pid "order_index" ord skip limit).Sorted (fun a b =>
        a.status.str < b.status.str ∨
          (a.status.str = b.status.str ∧ b.order_index ≤ a.order_index))) ∧
    (∀ k, k ≠ "order_index" →
      buildSortObj k ord = [(k, if ord == "desc" then -1 else 1)]) := by
  refine ⟨?_, ?_, ?_⟩
  · intro hasc
    have hspec : buildSortObj "order_index" ord = [("status", 1), ("order_index", 1)] := by
      have : (ord == "desc") = false := by
        simp [hasc]
      simp [buildSortObj, this]
    rw [listTasks, hspec]
    have htotal : ∀ a b : Task,
        (sortLe [("status", 1), ("order_index", 1)] a b = true) ∨
        (sortLe [("status", 1), ("order_index", 1)] b a = true) := by
      intro a b
      rw [sortLe_board_asc_iff, sortLe_board_asc_iff]
      rcases lt_trichotomy a.status.str b.status.str with h | h | h
      · exact Or.inl (Or.inl h)
      · rcases le_total a.order_index b.order_index with h2 | h2
        · exact Or.inl (Or.inr ⟨h, h2⟩)
        · exact Or.inr (Or.inr ⟨h.symm, h2⟩)
      · exact Or.inr (Or.inl h)
    have htrans : ∀ a b c : Task,
        (sortLe [("status", 1), ("order_index", 1)] a b = true) →
        (sortLe [("status", 1), ("order_index", 1)] b c = true) →
        (sortLe [("status", 1), ("order_index", 1)] a c = true) := by
      intro a b c hab hbc
      rw [sortLe_board_asc_iff] at hab hbc ⊢
      rcases hab with h1 | ⟨h1, h1o⟩
      · rcases hbc with h2 | ⟨h2, _⟩
        · exact Or.inl (lt_trans h1 h2)
        · exact Or.inl (h2 ▸ h1)
      · rcases hbc with h2 | ⟨h2, h2o⟩
        · exact Or.inl (h1 ▸ h2)
        · exact Or.inr ⟨h1.trans h2, le_trans h1o h2o⟩
    haveI : IsTotal Task (fun a b => sortLe [("status", 1), ("order_index", 1)] a b = true) :=
      ⟨htotal⟩
    haveI : IsTrans Task (fun a b => sortLe [("status", 1), ("order_index", 1)] a b = true) :=
      ⟨htrans⟩
    have hsorted := List.sorted_insertionSort
      (fun a b => sortLe [("status", 1), ("order_index", 1)] a b = true)
      ((tasks.filter fun t => t.plan_id == pid))
    have hpage := List.Pairwise.sublist
      ((List.take_sublist limit _).trans (List.drop_sublist skip _)) hsorted
    exact hpage.imp (fun h => (sortLe_board_asc_iff _ _).mp h)
  · intro hdesc
    have hspec : buildSortObj "order_index" ord = [("status", 1), ("order_index", -1)] := by
      subst hdesc
      rfl
    rw [listTasks, hspec]
    have htotal : ∀ a b : Task,
        (sortLe [("status", 1), ("order_index", -1)] a b = true) ∨
        (sortLe [("status", 1), ("order_index", -1)] b a = true) := by
      intro a b
      rw [sortLe_board_desc_iff, sortLe_board_desc_iff]
      rcases lt_trichotomy a.status.str b.status.str with h | h | h
      · exact Or.inl (Or.inl h)
      · rcases le_total b.order_index a.order_index with h2 | h2
        · exact Or.inl (Or.inr ⟨h, h2⟩)
        · exact Or.inr (Or.inr ⟨h.symm, h2⟩)
      · exact Or.inr (Or.inl h)
    have htrans : ∀ a b c : Task,
        (sortLe [("status", 1), ("order_index", -1)] a b = true) →
        (sortLe [("status", 1), ("order_index", -1)] b c = true) →
        (sortLe [("status", 1), ("order_index", -1)] a c = true) := by
      intro a b c hab hbc
      rw [sortLe_board_desc_iff] at hab hbc ⊢
      rcases hab with h1 | ⟨h1, h1o⟩
      · rcases hbc with h2 | ⟨h2, _⟩
        · exact Or.inl (lt_trans h1 h2)
        · exact Or.inl (h2 ▸ h1)
      · rcases hbc with h2 | ⟨h2, h2o⟩
        · exact Or.inl (h1 ▸ h2)
        · exact Or.inr ⟨h1.trans h2, le_trans h2o h1o⟩
    haveI : IsTotal Task (fun a b => sortLe [("status", 1), ("order_index", -1)] a b = true) :=
      ⟨htotal⟩
    haveI : IsTrans Task (fun a b => sortLe [("status", 1), ("order_index", -1)] a b = true) :=
      ⟨htrans⟩
    have hsorted := List.sorted_insertionSort
      (fun a b => sortLe [("status", 1), ("order_index", -1)] a b = true)
      ((tasks.filter fun t => t.plan_id == pid))
    have hpage := List.Pairwise.sublist
      ((List.take_sublist limit _).trans (List.drop_sublist skip _)) hsorted
    exact hpage.imp (fun h => (sortLe_board_desc_iff _ _).mp h)
  · intro k hk
    have : (k == "order_index") = false := by
      simp [hk]
    simp [buildSortObj, this]

theorem list_tasks_board_sort_witness :
    (listTasks [wTaskB, wTaskA] "p" "order_index" "asc" 0 50).Sorted (fun a b =>
      a.status.str < b.status.str ∨
        (a.status.str = b.status.str ∧ a.order_index ≤ b.order_index)) :=
  (list_tasks_board_sort [wTaskB, wTaskA] "p" "asc" 0 50).1 (by decide)

theorem processAssignees_snd_length (tIdx : Nat) (assigneeOk : Nat → Nat → Bool)
    (genUserId : Nat → Nat → String) (asgs : List ImportAssignee) :
    ∀ (users : List User) (aIdx : Nat),
      (processAssignees tIdx assigneeOk genUserId users aIdx asgs).2.length =
        countOkFrom (assigneeOk tIdx) aIdx asgs.length := by
  induction asgs with
  | nil =>
    intro users aIdx
    rfl
  | cons a rest ih =>
    intro users aIdx
    by_cases hok : assigneeOk tIdx aIdx
    · cases hfind : users.find? (fun u => u.email == a.email) with
      | some u => simp [processAssignees, hok, hfind, ih, countOkFrom, Nat.add_comm]
      | none => simp [processAssignees, hok, hfind, ih, countOkFrom, Nat.add_comm]
    · simp [processAssignees, hok, ih, countOkFrom]

theorem processTasks_entry (planId actor : String) (taskOk : Nat → Bool)
    (assigneeOk : Nat → Nat → Bool) (genUserId : Nat → Nat → String)
    (genTaskId : Nat → String) (items : List ImportTaskData) :
    ∀ (users : List User) (n i : Nat) (item : ImportTaskData),
      items[i]? = some item →
      ∃ aids : List String,
        (processTasks planId actor taskOk assigneeOk genUserId genTaskId
            users n items).2[i]? =
          some (if taskOk (n + i) then
            some (mkImportTask planId actor (genTaskId (n + i)) (n + i) item aids)
          else none) ∧
        aids.length = countOkFrom (assigneeOk (n + i)) 0 item.assignees.length := by
  induction items with
  | nil =>
    intro users n i item hi
    simp at hi
  | cons x rest ih =>
    intro users n i item hi
    match i with
    | 0 =>
      simp only [List.getElem?_cons_zero, Option.some.injEq] at hi
      subst hi
      refine ⟨(processAssignees n assigneeOk genUserId users 0 x.assignees).2, ?_, ?_⟩
      · simp [processTasks]
      · exact processAssignees_snd_length n assigneeOk genUserId x.assignees users 0
    | j + 1 =>
      simp only [List.getElem?_cons_succ] at hi
      obtain ⟨aids, h1, h2⟩ := ih
        (processAssignees n assigneeOk genUserId users 0 x.assignees).1 (n + 1) j item hi
      have harith : n + 1 + j = n + (j + 1) := by omega
      rw [harith] at h1 h2
      exact ⟨aids, by simpa [processTasks] using h1, h2⟩

theorem processTasks_created_count (planId actor : String) (taskOk : Nat → Bool)
    (assigneeOk : Nat → Nat → Bool) (genUserId : Nat → Nat → String)
    (genTaskId : Nat → String) (items : List ImportTaskData) :
    ∀ (users : List User) (n : Nat),
      ((processTasks planId actor taskOk assigneeOk genUserId genTaskId
          users n items).2.filterMap id).length =
        countOkFrom taskOk n items.length := by
  induction items with
  | nil =>
    intro users n
    rfl
  | cons x rest ih =>
    intro users n
    by_cases hok : taskOk n
    · simp [processTasks, hok, List.filterMap_cons, ih, countOkFrom, Nat.add_comm]
    · simp [processTasks, hok, List.filterMap_cons, ih, countOkFrom]

theorem processMembers_created_count (memberOk : Nat → Bool) (genUserId : Nat → String)
    (members : List ImportMember) :
    ∀ (users : List User) (n : Nat),
      ((processMembers memberOk genUserId users n members).2.filterMap id).length =
        countOkFrom memberOk n members.length := by
  induction members with
  | nil =>
    intro users n
    rfl
  | cons m rest ih =>
    intro users n
    by_cases hok : memberOk n
    · cases hfind : users.find? (fun u => u.email == m.email) with
      | some u => simp [processMembers, hok, hfind, List.filterMap_cons, ih, countOkFrom,
          Nat.add_comm]
      | none => simp [processMembers, hok, hfind, List.filterMap_cons, ih, countOkFrom,
          Nat.add_comm]
    · simp [processMembers, hok, List.filterMap_cons, ih, countOkFrom]

/-- C10: Import is best-effort per item: failed member / assignee / task
entries are dropped while every remaining entry is still created, and the
response reports exactly the number of tasks actually created. -/
theorem import_best_effort (users : List User) (data : ImportData)
    (actor planId : String) (memberOk : Nat → Bool) (taskOk : Nat → Bool)
    (assigneeOk : Nat → Nat → Bool) (genMemberUserId : Nat → String)
    (genAssigneeUserId : Nat → Nat → String) (genTaskId : Nat → String) :
    (importPlan users data actor planId memberOk taskOk assigneeOk
        genMemberUserId genAssigneeUserId genTaskId).tasks_created =
      (importPlan users data actor planId memberOk taskOk assigneeOk
        genMemberUserId genAssigneeUserId genTaskId).createdTasks.length ∧
    (importPlan users data actor planId memberOk taskOk assigneeOk
        genMemberUserId genAssigneeUserId genTaskId).createdTasks.length =
      countOkFrom taskOk 0 data.tasks.length ∧
    (importPlan users data actor planId memberOk taskOk assigneeOk
        genMemberUserId genAssigneeUserId genTaskId).members.length =
      countOkFrom memberOk 0 data.plan.members.length ∧
    (∀ (i : Nat) (item : ImportTaskData), data.tasks[i]? = some item →
      taskOk i = true →
      ∃ doc, doc ∈ (importPlan users data actor planId memberOk taskOk assigneeOk
          genMemberUserId genAssigneeUserId genTaskId).createdTasks ∧
        doc.title = item.title ∧
        doc.assignee_ids.length = countOkFrom (assigneeOk i) 0 item.assignees.length) := by
  refine ⟨rfl, ?_, ?_, ?_⟩
  · exact processTasks_created_count planId actor taskOk assigneeOk genAssigneeUserId
      genTaskId data.tasks _ 0
  · exact processMembers_created_count memberOk genMemberUserId data.plan.members users 0
  · intro i item hi hok
    obtain ⟨aids, h1, h2⟩ := processTasks_entry planId actor taskOk assigneeOk
      genAssigneeUserId genTaskId data.tasks
      (processMembers memberOk genMemberUserId users 0 data.plan.members).1 0 i item hi
    simp only [Nat.zero_add, hok, if_true] at h1 h2
    refine ⟨mkImportTask planId actor (genTaskId i) i item aids, ?_, rfl, h2⟩
    have hmem := List.getElem?_mem h1
    exact List.mem_filterMap.mpr ⟨_, hmem, rfl⟩

theorem import_best_effort_witness :
    ∃ doc, doc ∈ (importPlan [] wImportData "u" "np" (fun _ => true) (fun _ => true)
        (fun _ _ => true) (fun n => "mu" ++ toString n)
        (fun a b => "au" ++ toString a ++ toString b)
        (fun n => "nt" ++ toString n)).createdTasks ∧
      doc.title = "t1" ∧
      doc.assignee_ids.length = countOkFrom ((fun _ _ => true) 1) 0 0 :=
  (import_best_effort [] wImportData "u" "np" (fun _ => true) (fun _ => true)
    (fun _ _ => true) (fun n => "mu" ++ toString n)
    (fun a b => "au" ++ toString a ++ toString b)
    (fun n => "nt" ++ toString n)).2.2.2 1
    { title := "t1", status := .todo, order_index := 0 } rfl rfl

/-- C8 (counterexample): a snapshot task entry carrying `order_index: 0` at
batch position 1 is persisted with `order_index` 1 (its position), not the
snapshot's 0: `taskData.order_index || index` re-routes an explicit 0 to the
batch index. -/
theorem import_order_zero_counterexample :
    (wImportData.tasks.map ImportTaskData.order_index) = [5, 0] ∧
    ((importPlan [] wImportData "u" "np" (fun _ => true) (fun _ => true)
        (fun _ _ => true) (fun n => "mu" ++ toString n)
        (fun a b => "au" ++ toString a ++ toString b)
        (fun n => "nt" ++ toString n)).createdTasks.map Task.order_index) = [5, 1] :=
  ⟨rfl, rfl⟩

/-- C8 (amended): every successfully saved import task entry persists its
snapshot `parent_id` and `dependency_ids` verbatim — for every snapshot, with no
hypothesis that those strings resolve against the newly generated ids — and its
`order_index` equals the snapshot value when that value is non-zero, otherwise
(absent, which zod defaults to 0, or an explicit 0) its 0-based position in the
snapshot's task array. -/
theorem import_preserves_refs_and_order (users : List User) (data : ImportData)
    (actor planId : String) (memberOk : Nat → Bool) (taskOk : Nat → Bool)
    (assigneeOk : Nat → Nat → Bool) (genMemberUserId : Nat → String)
    (genAssigneeUserId : Nat → Nat → String) (genTaskId : Nat → String)
    (i : Nat) (item : ImportTaskData) (hi : data.tasks[i]? = some item)
    (hok : taskOk i = true) :
    ∃ doc, doc ∈ (importPlan users data actor planId memberOk taskOk assigneeOk
        genMemberUserId genAssigneeUserId genTaskId).createdTasks ∧
      doc.parent_id = item.parent_id ∧
      doc.dependency_ids = item.dependency_ids ∧
      doc.order_index = (if item.order_index = 0 then (i : Int) else item.order_index) := by
  obtain ⟨aids, h1, _⟩ := processTasks_entry planId actor taskOk assigneeOk
    genAssigneeUserId genTaskId data.tasks
    (processMembers memberOk genMemberUserId users 0 data.plan.members).1 0 i item hi
  simp only [Nat.zero_add, hok, if_true] at h1
  refine ⟨mkImportTask planId actor (genTaskId i) i item aids, ?_, rfl, rfl, ?_⟩
  · have hmem := List.getElem?_mem h1
    exact List.mem_filterMap.mpr ⟨_, hmem, rfl⟩
  · by_cases h0 : item.order_index = 0
    · simp [mkImportTask, jsOrInt, h0]
    · simp [mkImportTask, jsOrInt, h0]

theorem import_preserves_refs_and_order_witness :
    ∃ doc, doc ∈ (importPlan [] wImportData "u" "np" (fun _ => true) (fun _ => true)
        (fun _ _ => true) (fun n => "mu" ++ toString n)
        (fun a b => "au" ++ toString a ++ toString b)
        (fun n => "nt" ++ toString n)).createdTasks ∧
      doc.parent_id = ({ title := "t1", status := .todo, order_index := 0 }
        : ImportTaskData).parent_id ∧
      doc.dependency_ids = ({ title := "t1", status := .todo, order_index := 0 }
        : ImportTaskData).dependency_ids ∧
      doc.order_index = (if ({ title := "t1", status := .todo, order_index := 0 }
        : ImportTaskData).order_index = 0 then ((1 : Nat) : Int) else
          ({ title := "t1", status := .todo, order_index := 0 } : ImportTaskData).order_index) :=
  import_preserves_refs_and_order [] wImportData "u" "np" (fun _ => true) (fun _ => true)
    (fun _ _ => true) (fun n => "mu" ++ toString n)
    (fun a b => "au" ++ toString a ++ toString b)
    (fun n => "nt" ++ toString n) 1
    { title := "t1", status := .todo, order_index := 0 } rfl rfl

-- sanity check while developing

end Pdzanning
